import Mathlib

/-!
# Verification of the SIFT MEX driver (`toolbox/sift.c`)

This file gives a shallow embedding, in Lean 4, of the orchestration logic of
the SIFT MEX entry point `mexFunction` in `toolbox/sift.c`, together with the
helper functions `transpose_descriptor` and `korder` of the same file, and
proves (or refutes) the specified properties of that code.

Modelling conventions:
* C `double` / `float` values are modelled as rational numbers (`ℚ`); the
  arithmetic appearing in the modelled code (subtraction of 1, multiplication
  by 512, comparisons, truncating casts) is exact on the represented values.
* The external scale-space filter (`vl_sift_*` from `vl/sift.h`) is out of
  scope of the repository source; it is modelled as an abstract record of
  functions (`Filt`) giving the number of successfully processed octaves, the
  detected keypoints per octave, the orientation estimator, the raw-descriptor
  computation and the octave-of-scale computation performed by
  `vl_sift_keypoint_init`.  The octave index of the filter during the `s`-th
  processed octave is `o_min + s` (the filter steps one octave per
  `vl_sift_process_next_octave` call).
* MATLAB arrays mutated through pointers (`mxDuplicateArray` + in-place
  `qsort`) are modelled by a small heap of arrays addressed by handles.
* Ghost fields (`detectCalls`, `processed`, `insts`, `capOk`) record events of
  the run for the statements of the theorems; they influence nothing else.
-/

/-- The value of the C constant `VL_PI` (a `double` literal), as a rational. -/
def VL_PI : ℚ := 3.141592653589793

/-- C truncating conversion of a real (double) value to an integer:
truncation toward zero. -/
def truncQ (q : ℚ) : ℤ := if q < 0 then ⌈q⌉ else ⌊q⌋

/-- Lines 353-358 of `sift.c`: quantization of one transposed descriptor
entry.  `double x = 512.0 * rbuf[j]; x = (x < 255.0) ? x : 255.0;`
followed by the truncating cast `(vl_uint8) (x)`. -/
def quantizeByte (v : ℚ) : ℤ :=
  let x : ℚ := 512 * v
  let x : ℚ := if x < 255 then x else 255
  truncQ x

/-- Line 152 of `sift.c`: the `Octaves` option value `v` is rejected with
`mexErrMsgTxt` iff `(O = (int) *mxGetPr(optarg)) < 0`, i.e. iff the truncated
value is negative. -/
def octavesArgRejected (v : ℚ) : Bool := decide (truncQ v < 0)

/-- Line 158 of `sift.c`: the `Levels` option value `v` is rejected with
`mexErrMsgTxt` iff `(S = (int) *mxGetPr(optarg)) < 1`. -/
def levelsArgRejected (v : ℚ) : Bool := decide (truncQ v < 1)

/-- Line 316 of `sift.c`: in supplied mode with `force_orientations` off, the
single internal angle derived from the supplied angle `a` is
`angles[0] = VL_PI / 2 - ikeys[4*i+3]`.  Here the double subtraction is
idealized as exact; this value-bookkeeping version feeds only the structural
pipeline claims, which never compare an idealized value against an exactness
assertion.  The rounding-aware model of the same line is
`deriveInternalAngleD` below. -/
def deriveInternalAngle (a : ℚ) : ℚ := VL_PI / 2 - a

/-- Line 351 of `sift.c`: the angle written to the output geometry record is
`frames[4*nframes+3] = VL_PI / 2 - angles[q]`, with the double subtraction
idealized as exact (see `deriveInternalAngle`); the rounding-aware model is
`emitOutputAngleD` below. -/
def emitOutputAngle (angle : ℚ) : ℚ := VL_PI / 2 - angle

/-- One column of the caller-supplied 4 × N `Frames` matrix: the 4-tuple
`(y, x, sigma, angle)` of doubles. -/
structure Frame where
  y : ℚ
  x : ℚ
  sigma : ℚ
  angle : ℚ
deriving DecidableEq

/-- Lines 83-89 of `sift.c`: the `qsort` comparator `korder`, which compares
tuples by their third entry (`a[2]`, the scale `sigma`). -/
def korder (a b : Frame) : ℤ :=
  let x := a.sigma - b.sigma
  if x < 0 then -1 else if x > 0 then 1 else 0

/-- Insertion step of the sort applied by `qsort(ikeys, nikeys, …, korder)`:
an element is placed before the first element it does not compare after. -/
def insertK (a : Frame) : List Frame → List Frame
  | [] => [a]
  | b :: l => if korder a b ≤ 0 then a :: b :: l else b :: insertK a l

/-- The sort applied by `qsort` with comparator `korder` (line 195 of
`sift.c`): an ascending-by-`sigma` sort of the tuple list. -/
def qsortK (l : List Frame) : List Frame := l.foldr insertK []

/-! ## Heap model for the `Frames` option handling (lines 188-196)

MATLAB arrays live in a heap of `Frame`-column arrays addressed by handles;
`mxDuplicateArray` allocates a fresh array holding a copy of the contents, and
`qsort` mutates an array in place through its data pointer. -/

/-- A heap of MATLAB 4 × N double arrays, each viewed as its list of columns. -/
abbrev MxHeap : Type := List (List Frame)

/-- Read the contents of the array at handle `p`. -/
def heapRead (h : MxHeap) (p : Nat) : List Frame := List.getD h p []

/-- Overwrite the contents of the array at handle `p` in place. -/
def heapWrite (h : MxHeap) (p : Nat) (v : List Frame) : MxHeap := List.set h p v

/-- `mxDuplicateArray` (line 192): allocate a fresh array whose contents copy
the array at `p`; returns the new heap and the handle of the copy. -/
def mxDuplicateArray (h : MxHeap) (p : Nat) : MxHeap × Nat :=
  (h ++ [heapRead h p], h.length)

/-- `qsort(ikeys, nikeys, 4*sizeof(double), korder)` (line 195): sort the
array at handle `p` in place. -/
def qsortInPlace (h : MxHeap) (p : Nat) : MxHeap :=
  heapWrite h p (qsortK (heapRead h p))

/-- Lines 188-196 of `sift.c` (`case opt_frames`): duplicate the array of the caller, then sort the duplicate in place; the handle of the duplicate becomes
`ikeys`.  Returns the heap after both steps and the `ikeys` handle. -/
def optFramesCase (h : MxHeap) (optarg : Nat) : MxHeap × Nat :=
  let d := mxDuplicateArray h optarg
  (qsortInPlace d.1 d.2, d.2)

/-! ## Theorems: quantization (C1), option guards (C3), angle round trip (C5),
duplication before sort (C8) -/

/-- C1 (counterexample): the claim "the stored byte equals
`min(255, round(512 · v))`" fails at the non-negative descriptor value
`v = 3/2048`: `512 · v = 3/4` rounds to `1`, but the C cast truncates it
to `0`. -/
theorem C1_round_counterexample :
    (0:ℚ) ≤ 3/2048 ∧
      quantizeByte (3/2048) ≠ min 255 (round ((512:ℚ) * (3/2048))) := by
  constructor
  · norm_num
  · norm_num [quantizeByte, truncQ, round_eq]

/-- C1 (amended): for every non-negative descriptor value `v`, the stored
byte equals `min(255, ⌊512 · v⌋)` — the scaled value is clamped above at 255
and then *truncated* toward zero (the C cast `(vl_uint8)`), not rounded to
the nearest integer. -/
theorem C1_quantize_trunc_clamp (v : ℚ) (h : 0 ≤ v) :
    quantizeByte v = min 255 ⌊(512:ℚ) * v⌋ := by
  have h512 : (0:ℚ) ≤ 512 * v := by positivity
  unfold quantizeByte truncQ
  by_cases hlt : (512:ℚ) * v < 255
  · have hfl : ⌊(512:ℚ) * v⌋ ≤ 255 := by
      have : ⌊(512:ℚ) * v⌋ ≤ ⌊(255:ℚ)⌋ := Int.floor_le_floor (le_of_lt hlt)
      simpa using this
    simp only [if_pos hlt, if_neg (not_lt.mpr h512)]
    exact (min_eq_right hfl).symm
  · have h255 : (255:ℚ) ≤ 512 * v := not_lt.mp hlt
    have hfl : (255:ℤ) ≤ ⌊(512:ℚ) * v⌋ := by
      have : ⌊(255:ℚ)⌋ ≤ ⌊(512:ℚ) * v⌋ := Int.floor_le_floor h255
      simpa using this
    simp only [if_neg hlt]
    norm_num [min_eq_left hfl]

/-- Witness for `C1_quantize_trunc_clamp` at `v = 1/2`. -/
theorem C1_quantize_trunc_clamp_witness :
    (0:ℚ) ≤ 1/2 ∧ quantizeByte (1/2) = min 255 ⌊(512:ℚ) * (1/2)⌋ :=
  ⟨by norm_num, C1_quantize_trunc_clamp (1/2) (by norm_num)⟩

/-- C3: contrary to the claim (and to the error message in the code itself,
`Octaves must be a positive integer`), the non-positive value `0` for
`Octaves` is *not* rejected — the guard at line 152 only rejects a negative
truncated value — while `Levels` at `0` is rejected as claimed. -/
theorem C3_octaves_zero_accepted :
    octavesArgRejected 0 = false ∧ levelsArgRejected 0 = true := by
  constructor <;> norm_num [octavesArgRejected, levelsArgRejected, truncQ]

/-! ## IEEE binary64 model of the angle computations (for C5)

Lines 316 and 351 compute `VL_PI / 2 - x` in `double` arithmetic.  Every
`double` is a rational `m * 2^e` with `|m| < 2^53`, and each operation rounds
its exact result to the nearest such rational, ties to even.  `VL_PI / 2` is
exact (halving shifts the exponent), so each of the two lines performs
exactly one rounded subtraction. -/

/-- Round a rational to the nearest integer, ties to even — the rounding the
IEEE default mode applies to a value scaled into integer position. -/
def rne (q : ℚ) : ℤ :=
  if q - ⌊q⌋ = 1/2 then (if 2 ∣ ⌊q⌋ then ⌊q⌋ else ⌊q⌋ + 1) else round q

/-- IEEE binary64 rounding of a real (rational) value: round to nearest,
ties to even, at 53 significant bits.  Overflow and subnormal underflow are
not modelled — the angle values of this development are far from both
ranges. -/
def fl (x : ℚ) : ℚ :=
  if x = 0 then 0
  else ((rne (x / 2 ^ (Int.log 2 |x| - 52)) : ℤ) : ℚ) *
    2 ^ (Int.log 2 |x| - 52)

/-- The IEEE binary64 value of the C constant `VL_PI`: the double nearest
the literal `3.141592653589793`. -/
def VL_PI_dbl : ℚ := 884279719003555 / 2 ^ 48

/-- Line 316 of `sift.c` in IEEE doubles: the stored internal angle is the
rounded subtraction `fl(VL_PI/2 - a)` (the halving of `VL_PI` is exact). -/
def deriveInternalAngleD (a : ℚ) : ℚ := fl (VL_PI_dbl / 2 - a)

/-- Line 351 of `sift.c` in IEEE doubles: the emitted output angle is the
rounded subtraction `fl(VL_PI/2 - angle)`. -/
def emitOutputAngleD (angle : ℚ) : ℚ := fl (VL_PI_dbl / 2 - angle)

/-- A rational in the binade `[2^e, 2^(e+1))` has binary logarithm `e`. -/
theorem intLog_eq_of_bounds (e : ℤ) (r : ℚ) (hr : 0 < r)
    (hlo : (2:ℚ) ^ e ≤ r) (hhi : r < (2:ℚ) ^ (e + 1)) :
    Int.log 2 r = e := by
  have hb : (1:ℕ) < 2 := by norm_num
  have h1 : e ≤ Int.log 2 r := by
    rw [← Int.zpow_le_iff_le_log hb hr]
    push_cast
    exact hlo
  have h2 : Int.log 2 r < e + 1 := by
    rw [← Int.lt_zpow_iff_log_lt hb hr]
    push_cast
    exact hhi
  omega

/-- Evaluation of `fl` on a positive value with known binade. -/
theorem fl_eval (x : ℚ) (e : ℤ) (hx : 0 < x) (hlo : (2:ℚ) ^ e ≤ x)
    (hhi : x < (2:ℚ) ^ (e + 1)) :
    fl x = ((rne (x / 2 ^ (e - 52)) : ℤ) : ℚ) * 2 ^ (e - 52) := by
  unfold fl
  rw [if_neg (ne_of_gt hx), abs_of_pos hx, intLog_eq_of_bounds e x hx hlo hhi]

/-- C5 (counterexample): the round trip does not recover the supplied angle
exactly.  For the supplied angle `a = 2^-60` (a double), the subtraction of
line 316 rounds `VL_PI/2 - a` back up to `VL_PI/2` (the perturbation is far
below half an ulp), and line 351 then emits `fl(VL_PI/2 - VL_PI/2) = 0 ≠ a`. -/
theorem C5_roundtrip_counterexample :
    emitOutputAngleD (deriveInternalAngleD ((2:ℚ) ^ (-60 : ℤ))) = 0 ∧
      emitOutputAngleD (deriveInternalAngleD ((2:ℚ) ^ (-60 : ℤ))) ≠
        (2:ℚ) ^ (-60 : ℤ) := by
  have hd : deriveInternalAngleD ((2:ℚ) ^ (-60 : ℤ)) = VL_PI_dbl / 2 := by
    unfold deriveInternalAngleD
    have hx : VL_PI_dbl / 2 - (2:ℚ) ^ (-60 : ℤ) =
        1811004864519280639 / 2 ^ 60 := by
      unfold VL_PI_dbl
      norm_num
    rw [hx, fl_eval _ 0 (by norm_num) (by norm_num) (by norm_num)]
    have hq : (1811004864519280639 : ℚ) / 2 ^ 60 / 2 ^ ((0:ℤ) - 52) =
        1811004864519280639 / 2 ^ 8 := by
      norm_num
    rw [hq]
    have hr : rne ((1811004864519280639 : ℚ) / 2 ^ 8) = 7074237752028440 := by
      unfold rne
      norm_num [round_eq]
    rw [hr]
    unfold VL_PI_dbl
    norm_num
  have hz : emitOutputAngleD (VL_PI_dbl / 2) = 0 := by
    unfold emitOutputAngleD
    rw [show VL_PI_dbl / 2 - VL_PI_dbl / 2 = 0 from by ring]
    unfold fl
    rw [if_pos rfl]
  refine ⟨by rw [hd, hz], ?_⟩
  rw [hd, hz]
  norm_num

/-- C5 (amended): in supplied mode with force-orientation off, the derived
internal angle is the rounded double `fl(VL_PI/2 − a)` (line 316), and
whenever the supplied angle `a` and the difference `VL_PI/2 − a` are exactly
representable doubles, the angle emitted by line 351 recovers `a` exactly;
for other supplied angles the recovery is only approximate (see the
counterexample). -/
theorem C5_angle_roundtrip_exact (a : ℚ) (ha : fl a = a)
    (hsub : fl (VL_PI_dbl / 2 - a) = VL_PI_dbl / 2 - a) :
    deriveInternalAngleD a = fl (VL_PI_dbl / 2 - a) ∧
      emitOutputAngleD (deriveInternalAngleD a) = a := by
  refine ⟨rfl, ?_⟩
  unfold emitOutputAngleD deriveInternalAngleD
  rw [hsub, show VL_PI_dbl / 2 - (VL_PI_dbl / 2 - a) = a from by ring, ha]

/-- Witness for `C5_angle_roundtrip_exact` at the supplied angle `a = 1`:
both `1` and `VL_PI/2 - 1` are exactly representable doubles, and the round
trip emits exactly `1`. -/
theorem C5_angle_roundtrip_exact_witness :
    (fl 1 = 1 ∧ fl (VL_PI_dbl / 2 - 1) = VL_PI_dbl / 2 - 1) ∧
      (deriveInternalAngleD 1 = fl (VL_PI_dbl / 2 - 1) ∧
        emitOutputAngleD (deriveInternalAngleD 1) = 1) := by
  have ha : fl (1:ℚ) = 1 := by
    rw [fl_eval 1 0 (by norm_num) (by norm_num) (by norm_num)]
    unfold rne
    norm_num [round_eq]
  have hsub : fl (VL_PI_dbl / 2 - 1) = VL_PI_dbl / 2 - 1 := by
    have hx : VL_PI_dbl / 2 - 1 = 321329765582243 / 2 ^ 49 := by
      unfold VL_PI_dbl
      norm_num
    rw [hx, fl_eval _ (-1) (by norm_num) (by norm_num) (by norm_num)]
    unfold rne
    norm_num [round_eq]
  exact ⟨⟨ha, hsub⟩, C5_angle_roundtrip_exact 1 ha hsub⟩

/-- C8: the `Frames` option handling duplicates the array of the caller before
sorting: after `optFramesCase`, the array of the caller at handle `p` still holds
its original contents, the working handle `ikeys` is a fresh handle distinct
from `p`, and it holds the ascending-by-`sigma` sort of the original
contents. -/
theorem C8_frames_duplicated (h : MxHeap) (p : Nat) (hp : p < h.length) :
    heapRead (optFramesCase h p).1 p = heapRead h p ∧
      heapRead (optFramesCase h p).1 (optFramesCase h p).2 =
        qsortK (heapRead h p) ∧
      (optFramesCase h p).2 ≠ p := by
  have hne : p ≠ h.length := Nat.ne_of_lt hp
  have hlen : h.length < (h ++ [heapRead h p]).length := by
    simp
  refine ⟨?_, ?_, ?_⟩
  · show heapRead (heapWrite (h ++ [heapRead h p]) h.length
        (qsortK (heapRead (h ++ [heapRead h p]) h.length))) p = heapRead h p
    unfold heapRead heapWrite
    rw [List.getD_eq_getElem?_getD, List.getElem?_set_ne hne.symm,
      List.getElem?_append_left hp, ← List.getD_eq_getElem?_getD]
  · show heapRead (heapWrite (h ++ [heapRead h p]) h.length
        (qsortK (heapRead (h ++ [heapRead h p]) h.length))) h.length =
      qsortK (heapRead h p)
    have hdup : heapRead (h ++ [heapRead h p]) h.length = heapRead h p := by
      unfold heapRead
      rw [List.getD_eq_getElem?_getD, List.getElem?_append_right (le_refl _)]
      simp
    unfold heapRead heapWrite
    rw [List.getD_eq_getElem?_getD, List.getElem?_set_self (by simp)]
    unfold heapRead at hdup
    simp [hdup]
  · exact fun hcontra => hne (hcontra.symm)

/-- Witness for `C8_frames_duplicated` on a one-array heap. -/
theorem C8_frames_duplicated_witness :
    (0:Nat) < ([[Frame.mk 1 2 3 4]] : MxHeap).length ∧
      (heapRead (optFramesCase [[Frame.mk 1 2 3 4]] 0).1 0 =
          heapRead [[Frame.mk 1 2 3 4]] 0 ∧
        heapRead (optFramesCase [[Frame.mk 1 2 3 4]] 0).1
            (optFramesCase [[Frame.mk 1 2 3 4]] 0).2 =
          qsortK (heapRead [[Frame.mk 1 2 3 4]] 0) ∧
        (optFramesCase [[Frame.mk 1 2 3 4]] 0).2 ≠ 0) :=
  ⟨by simp [MxHeap], C8_frames_duplicated [[Frame.mk 1 2 3 4]] 0 (by simp [MxHeap])⟩

/-! ## The descriptor transpose (`transpose_descriptor`, lines 54-71)

The C function performs, for `j` and `i` ranging over `0..BP-1` and `t` over
`1..BO-1` (with `BO = 8`, `BP = 4`), the writes

  `dst[op]          = src[o]`
  `dst[BO - t + op] = src[t + o]`

with `jp = BP-1-j`, `o = BO*i + BP*BO*j`, `op = BO*i + BP*BO*jp`.  We embed
the function as the fold, in exactly this loop order, of single-cell writes
over the destination buffer (modelled as `Nat → ℚ`, with every cell of the
128-element buffer written by the loop). -/

/-- Number of orientation bins (`BO` in `sift.c`). -/
def BO : Nat := 8

/-- Number of spatial bins (`BP` in `sift.c`). -/
def BP : Nat := 4

/-- A single array-cell write `dst[idx] = v`. -/
def writeAt (idx : Nat) (v : ℚ) (d : Nat → ℚ) : Nat → ℚ :=
  fun k => if k = idx then v else d k

/-- The sequence of `(destination index, source index)` pairs written by the
loops of `transpose_descriptor`, in program order. -/
def transposeWrites : List (Nat × Nat) :=
  (List.range BP).flatMap (fun j =>
    (List.range BP).flatMap (fun i =>
      let jp := BP - 1 - j
      let o  := BO * i + BP * BO * j
      let op := BO * i + BP * BO * jp
      (op, o) :: (List.range (BO - 1)).map
        (fun t0 => (BO - (t0 + 1) + op, (t0 + 1) + o))))

/-- Lines 54-71 of `sift.c`: the descriptor transpose, as the fold of the
writes of the loop over an initially-zero destination buffer. -/
def transpose_descriptor (src : Nat → ℚ) : Nat → ℚ :=
  transposeWrites.foldl (fun d w => writeAt w.1 (src w.2) d) (fun _ => 0)

/-- The index permutation realized by the transpose: the destination cell `p`
receives the source cell `tmap p`. -/
def tmap (p : Nat) : Nat :=
  8 * (p % 32 / 8) + 32 * (3 - p / 32) + (if p % 8 = 0 then 0 else 8 - p % 8)

/-- A fold of single-cell writes, read at cell `k`, returns the value of the
last write to `k`, or the value held by the initial buffer when `k` is never written. -/
theorem foldl_writeAt_eval (src : Nat → ℚ) (ws : List (Nat × Nat))
    (d0 : Nat → ℚ) (k : Nat) :
    ws.foldl (fun d w => writeAt w.1 (src w.2) d) d0 k =
      match ws.reverse.find? (fun w => w.1 == k) with
      | some w => src w.2
      | none => d0 k := by
  induction ws generalizing d0 with
  | nil => rfl
  | cons w ws ih =>
    rw [List.foldl_cons, ih, List.reverse_cons, List.find?_append]
    cases hfind : ws.reverse.find? (fun w => w.1 == k) with
    | some w' => simp [Option.or]
    | none =>
      by_cases hk : w.1 = k
      · simp [Option.or, List.find?, hk, writeAt]
      · have hk' : ¬k = w.1 := fun h => hk h.symm
        have : (w.1 == k) = false := by simpa using hk
        simp [Option.or, List.find?, this, writeAt, hk']

set_option maxRecDepth 8192 in
/-- Each in-range destination cell is written exactly from its `tmap` source
cell (computed once and for all over the concrete write list). -/
theorem transposeWrites_find :
    ∀ k, k < 128 →
      transposeWrites.reverse.find? (fun w => w.1 == k) = some (k, tmap k) := by
  decide

/-- `tmap` maps the descriptor index range into itself. -/
theorem tmap_lt : ∀ k, k < 128 → tmap k < 128 := by decide

/-- `tmap` is an involution on the descriptor index range. -/
theorem tmap_tmap : ∀ k, k < 128 → tmap (tmap k) = k := by decide

/-- Reading cell `k < 128` of the transposed descriptor yields source cell
`tmap k`. -/
theorem transpose_descriptor_eval (src : Nat → ℚ) (k : Nat) (hk : k < 128) :
    transpose_descriptor src k = src (tmap k) := by
  unfold transpose_descriptor
  rw [foldl_writeAt_eval, transposeWrites_find k hk]

/-- C4: the descriptor transpose is an involution — applying
`transpose_descriptor` twice returns every one of the 128 entries of the
input unchanged. -/
theorem C4_transpose_involution (src : Nat → ℚ) (k : Nat) (hk : k < 128) :
    transpose_descriptor (transpose_descriptor src) k = src k := by
  rw [transpose_descriptor_eval _ k hk,
    transpose_descriptor_eval src (tmap k) (tmap_lt k hk), tmap_tmap k hk]

/-- Witness for `C4_transpose_involution` at cell 0 of the descriptor
`src n = n`. -/
theorem C4_transpose_involution_witness :
    (0:Nat) < 128 ∧
      transpose_descriptor (transpose_descriptor (fun n => (n:ℚ))) 0 =
        (fun n => (n:ℚ)) 0 :=
  ⟨by decide, C4_transpose_involution (fun n => (n:ℚ)) 0 (by decide)⟩

/-! ## The octave-processing pipeline (lines 211-411)

The "do job" block of `mexFunction`, with the external filter abstracted.
The filter processes `numSteps` octaves successfully (the calls
`vl_sift_process_first_octave` / `vl_sift_process_next_octave` return 0 for
the first `numSteps` loop iterations, then a nonzero error that breaks the
octave loop); during the `s`-th processed octave its octave index is
`o_min + s`. -/

/-- A keypoint (`VlSiftKeypoint`): octave index and the `x`, `y`, `sigma`
fields used by this driver. -/
structure Keypoint where
  o : ℤ
  x : ℚ
  y : ℚ
  sigma : ℚ
deriving DecidableEq

/-- Abstraction of the scale-space filter (`VlSiftFilt`) for one run. -/
structure Filt where
  /-- First octave index (`o_min`). -/
  o_min : ℤ
  /-- Number of octaves processed before the processing call fails. -/
  numSteps : Nat
  /-- Octave index assigned by `vl_sift_keypoint_init` to a scale `sigma`. -/
  octaveOfSigma : ℚ → ℤ
  /-- Keypoints returned by `vl_sift_detect` + `vl_sift_get_keypoints` during
  the `s`-th processed octave. -/
  detectAt : Nat → List Keypoint
  /-- Angles returned by `vl_sift_calc_keypoint_orientations` during the
  `s`-th processed octave. -/
  orientAt : Nat → Keypoint → List ℚ
  /-- Raw descriptor returned by `vl_sift_calc_keypoint_descriptor` during
  the `s`-th processed octave. -/
  descrAt : Nat → Keypoint → ℚ → (Nat → ℚ)

/-- The mutable state of the driver: the keypoint cursor `i`, the record count
`nframes`, the buffer capacity `reserved`, the geometry records written so
far and the descriptor records written so far, plus ghost fields (they feed
no computation): the number of `vl_sift_detect` calls, the list of
`(octave step, tuple index)` pairs of supplied tuples consumed, the stream of
oriented keypoint instances appended, and a monitor bit for the capacity
invariant. -/
structure RunState where
  i : Nat
  nframes : Nat
  reserved : Nat
  frames : List Frame
  descr : List (List ℤ)
  detectCalls : Nat
  processed : List (Nat × Nat)
  insts : List (Nat × Keypoint × ℚ)
  capOk : Bool
deriving DecidableEq

/-- Initial driver state (lines 214-216 and 249): empty buffers,
`nframes = reserved = 0`, cursor `i = 0`. -/
def initState : RunState :=
  { i := 0, nframes := 0, reserved := 0, frames := [], descr := [],
    detectCalls := 0, processed := [], insts := [], capOk := true }

/-- Lines 348-351 of `sift.c`: the geometry record saved for an oriented
keypoint instance, with MATLAB conventions (x/y swap, 1-based indexing,
reflected angle). -/
def geomRecord (k : Keypoint) (angle : ℚ) : Frame :=
  { y := k.y + 1, x := k.x + 1, sigma := k.sigma,
    angle := emitOutputAngle angle }

/-- Lines 353-359 of `sift.c`: the 128-byte descriptor record stored for an
oriented keypoint instance, from the transposed raw descriptor `rbuf`. -/
def descRecord (rbuf : Nat → ℚ) : List ℤ :=
  (List.range 128).map (fun j => quantizeByte (rbuf j))

/-- The geometry record of an instance `(s, k, angle)`. -/
def geomOfInst (q : Nat × Keypoint × ℚ) : Frame := geomRecord q.2.1 q.2.2

/-- The descriptor record of an instance `(s, k, angle)`: the raw descriptor
computed by the filter at that step, transposed, then quantized. -/
def descOfInst (flt : Filt) (q : Nat × Keypoint × ℚ) : List ℤ :=
  descRecord (transpose_descriptor (flt.descrAt q.1 q.2.1 q.2.2))

/-- Lines 326-362, body of the orientation loop for one angle: descriptor
computation + transposition when `nout > 1` (lines 330-335), amortized buffer
growth (lines 337-344: if `reserved < nframes + 1` then
`reserved += 2 * nkeys` and both buffers are reallocated preserving their
contents), the geometry-record write (lines 348-351), the descriptor-record
write when `nout > 1` (lines 353-359), and `++nframes`.  The ghost `insts`
logs the instance; the ghost `capOk` checks that after growth the written
index is within capacity and that capacity did not shrink. -/
def appendRecord (nout nkeys s : Nat) (flt : Filt) (k : Keypoint) (angle : ℚ)
    (st : RunState) : RunState :=
  let rbuf := transpose_descriptor (flt.descrAt s k angle)
  let reserved' :=
    if st.reserved < st.nframes + 1 then st.reserved + 2 * nkeys
    else st.reserved
  { st with
    reserved := reserved'
    frames := st.frames ++ [geomRecord k angle]
    descr := if nout > 1 then st.descr ++ [descRecord rbuf] else st.descr
    nframes := st.nframes + 1
    insts := st.insts ++ [(s, k, angle)]
    capOk := st.capOk && decide (st.nframes + 1 ≤ reserved')
      && decide (st.reserved ≤ reserved') }

/-- Lines 326-362: the loop over the `nangles` orientations of one keypoint. -/
def processAngles (nout nkeys s : Nat) (flt : Filt) (k : Keypoint)
    (angles : List ℚ) (st : RunState) : RunState :=
  angles.foldl (fun st angle => appendRecord nout nkeys s flt k angle st) st

/-- Lines 299-303 of `sift.c`: the keypoint rebuilt from a supplied tuple by
`vl_sift_keypoint_init(filt, &ik, ikeys[4i+1]-1, ikeys[4i+0]-1,
ikeys[4i+2])` — so `ik.x = tuple.x - 1`, `ik.y = tuple.y - 1`,
`ik.sigma = tuple.sigma`, and `ik.o` is the octave the filter assigns to that
scale. -/
def suppliedKey (flt : Filt) (tup : Frame) : Keypoint :=
  { o := flt.octaveOfSigma tup.sigma, x := tup.x - 1, y := tup.y - 1,
    sigma := tup.sigma }

/-- Lines 312-318 of `sift.c`: the orientations of one supplied keypoint —
the estimate of the filter when `force_orientations` is set, else the single angle
`VL_PI/2 - ikeys[4i+3]`. -/
def suppliedAngles (flt : Filt) (force : Bool) (s : Nat) (tup : Frame) :
    List ℚ :=
  if force then flt.orientAt s (suppliedKey flt tup)
  else [deriveInternalAngle tup.angle]

/-- Set the keypoint cursor `i`. -/
def setI (i' : Nat) (st : RunState) : RunState := { st with i := i' }

/-- Advance the keypoint cursor (the `++i` of the keypoint `for` loop). -/
def bumpI (st : RunState) : RunState := { st with i := st.i + 1 }

/-- Ghost: count one invocation of `vl_sift_detect`. -/
def bumpDetect (st : RunState) : RunState :=
  { st with detectCalls := st.detectCalls + 1 }

/-- Ghost: log that the supplied tuple at the cursor is consumed during
octave step `s`. -/
def logProcessed (s : Nat) (st : RunState) : RunState :=
  { st with processed := st.processed ++ [(s, st.i)] }

/-- One iteration of the supplied-mode keypoint loop body after the octave
test has passed: log the consumed tuple, process all its orientations, then
advance the cursor (`++i`). -/
def suppliedBody (flt : Filt) (nout : Nat) (force : Bool)
    (ikeys : List Frame) (s : Nat) (tup : Frame) (st : RunState) : RunState :=
  bumpI (processAngles nout ikeys.length s flt (suppliedKey flt tup)
    (suppliedAngles flt force s tup) (logProcessed s st))

/-- Lines 292-363 in supplied mode (`nikeys >= 0`): the keypoint loop
`for (; i < nkeys; ++i)` with the break of lines 305-307 — if the octave of
the keypoint rebuilt from the tuple at the cursor differs from the current
octave index of the filter, the loop stops without advancing the cursor past that
tuple.  `fuel` bounds the remaining iterations; the caller passes
`ikeys.length - st.i`, which the `++i` loop structure never exceeds. -/
def suppliedLoop (flt : Filt) (nout : Nat) (force : Bool)
    (ikeys : List Frame) (s : Nat) : Nat → RunState → RunState
  | 0, st => st
  | fuel + 1, st =>
    if h : st.i < ikeys.length then
      if flt.octaveOfSigma (ikeys.get ⟨st.i, h⟩).sigma = flt.o_min + s then
        suppliedLoop flt nout force ikeys s fuel
          (suppliedBody flt nout force ikeys s (ikeys.get ⟨st.i, h⟩) st)
      else st
    else st

/-- Lines 292-363 in auto-detect mode (`nikeys < 0`): every detected keypoint
is processed with the 1-4 orientations the filter itself estimates. -/
def autoLoop (flt : Filt) (nout s : Nat) (keys : List Keypoint)
    (st : RunState) : RunState :=
  keys.foldl
    (fun st k => processAngles nout keys.length s flt k (flt.orientAt s k) st)
    st

/-- Lines 251-364, body of one successful octave iteration: in auto-detect
mode, run `vl_sift_detect`, reset the cursor to 0 and process all detected
keypoints (the cursor ends at their count); in supplied mode, keep the
persistent cursor and consume matching tuples. -/
def octaveStep (flt : Filt) (nout : Nat) (force : Bool)
    (ikeysOpt : Option (List Frame)) (s : Nat) (st : RunState) : RunState :=
  match ikeysOpt with
  | none =>
    setI (flt.detectAt s).length
      (autoLoop flt nout s (flt.detectAt s) (setI 0 (bumpDetect st)))
  | some ikeys => suppliedLoop flt nout force ikeys s (ikeys.length - st.i) st

/-- Lines 249-364: the whole octave loop — the filter successfully processes
octaves `0, …, numSteps-1` and the processing call for the next octave fails,
breaking the loop. -/
def mexRun (flt : Filt) (nout : Nat) (force : Bool)
    (ikeysOpt : Option (List Frame)) : RunState :=
  (List.range flt.numSteps).foldl
    (fun st s => octaveStep flt nout force ikeysOpt s st) initState

/-! ## Invariant machinery for the pipeline -/

/-- A predicate preserved by every step of a fold is preserved by the fold. -/
theorem foldl_inv {α β : Type _} (P : β → Prop) (f : β → α → β) (l : List α)
    (b : β) (hf : ∀ b a, a ∈ l → P b → P (f b a)) (hb : P b) :
    P (l.foldl f b) := by
  induction l generalizing b with
  | nil => exact hb
  | cons a l ih =>
    exact ih _ (fun b' a' ha' hb' => hf b' a' (List.mem_cons_of_mem _ ha') hb')
      (hf b a (List.mem_cons_self _ _) hb)

/-- A relation preserved by matching steps of two folds over the same list is
preserved by the folds. -/
theorem foldl_rel {α β γ : Type _} (R : β → γ → Prop) (f : β → α → β)
    (g : γ → α → γ) (l : List α) (b : β) (c : γ)
    (hfg : ∀ b c a, a ∈ l → R b c → R (f b a) (g c a)) (hbc : R b c) :
    R (l.foldl f b) (l.foldl g c) := by
  induction l generalizing b c with
  | nil => exact hbc
  | cons a l ih =>
    exact ih _ _ (fun b' c' a' ha' => hfg b' c' a' (List.mem_cons_of_mem _ ha'))
      (hfg b c a (List.mem_cons_self _ _) hbc)

/-- `appendRecord` does not move the keypoint cursor. -/
theorem appendRecord_i (nout nkeys s : Nat) (flt : Filt) (k : Keypoint)
    (angle : ℚ) (st : RunState) :
    (appendRecord nout nkeys s flt k angle st).i = st.i := rfl

/-- `appendRecord` does not touch the ghost list of consumed tuples. -/
theorem appendRecord_processed (nout nkeys s : Nat) (flt : Filt) (k : Keypoint)
    (angle : ℚ) (st : RunState) :
    (appendRecord nout nkeys s flt k angle st).processed = st.processed := rfl

/-- The orientation loop does not move the keypoint cursor. -/
theorem processAngles_i (nout nkeys s : Nat) (flt : Filt) (k : Keypoint)
    (angles : List ℚ) (st : RunState) :
    (processAngles nout nkeys s flt k angles st).i = st.i := by
  unfold processAngles
  refine foldl_inv (fun st' => st'.i = st.i)
    (fun st angle => appendRecord nout nkeys s flt k angle st) angles st
    (fun st' a _ h => ?_) rfl
  exact (appendRecord_i nout nkeys s flt k a st').trans h

/-- The orientation loop does not touch the ghost list of consumed tuples. -/
theorem processAngles_processed (nout nkeys s : Nat) (flt : Filt)
    (k : Keypoint) (angles : List ℚ) (st : RunState) :
    (processAngles nout nkeys s flt k angles st).processed = st.processed := by
  unfold processAngles
  refine foldl_inv (fun st' => st'.processed = st.processed)
    (fun st angle => appendRecord nout nkeys s flt k angle st) angles st
    (fun st' a _ h => ?_) rfl
  exact (appendRecord_processed nout nkeys s flt k a st').trans h

/-- The supplied-mode loop body advances the cursor by exactly one. -/
theorem suppliedBody_i (flt : Filt) (nout : Nat) (force : Bool)
    (ikeys : List Frame) (s : Nat) (tup : Frame) (st : RunState) :
    (suppliedBody flt nout force ikeys s tup st).i = st.i + 1 := by
  unfold suppliedBody bumpI
  rw [processAngles_i]
  rfl

/-- The supplied-mode loop body logs exactly the consumed tuple. -/
theorem suppliedBody_processed (flt : Filt) (nout : Nat) (force : Bool)
    (ikeys : List Frame) (s : Nat) (tup : Frame) (st : RunState) :
    (suppliedBody flt nout force ikeys s tup st).processed =
      st.processed ++ [(s, st.i)] := by
  unfold suppliedBody bumpI
  rw [processAngles_processed]
  rfl

/-- A predicate that ignores the cursor, the detector-call counter and the
consumed-tuple log, and that is preserved by `appendRecord` for every
positive `nkeys`, is preserved by the whole run. -/
theorem mexRun_inv (flt : Filt) (nout : Nat) (force : Bool)
    (ikeysOpt : Option (List Frame)) (P : RunState → Prop)
    (hSetI : ∀ st i', P st → P (setI i' st))
    (hLog : ∀ st s, P st → P (logProcessed s st))
    (hDet : ∀ st, P st → P (bumpDetect st))
    (happ : ∀ nkeys s k angle st, 1 ≤ nkeys → P st →
      P (appendRecord nout nkeys s flt k angle st))
    (hinit : P initState) :
    P (mexRun flt nout force ikeysOpt) := by
  have hangles : ∀ nkeys s k angles st, 1 ≤ nkeys → P st →
      P (processAngles nout nkeys s flt k angles st) := by
    intro nkeys s k angles st hk hst
    unfold processAngles
    exact foldl_inv P (fun st angle => appendRecord nout nkeys s flt k angle st)
      angles st (fun st' a _ h => happ nkeys s k a st' hk h) hst
  have hbody : ∀ ikeys s tup st, (1:Nat) ≤ ikeys.length → P st →
      P (suppliedBody flt nout force ikeys s tup st) := by
    intro ikeys s tup st hk hst
    unfold suppliedBody
    exact hSetI _ _ (hangles ikeys.length s _ _ _ hk (hLog _ _ hst))
  have hsup : ∀ ikeys s fuel st, P st →
      P (suppliedLoop flt nout force ikeys s fuel st) := by
    intro ikeys s fuel
    induction fuel with
    | zero => exact fun st h => h
    | succ fuel ih =>
      intro st h
      rw [suppliedLoop]
      by_cases hi : st.i < ikeys.length
      · rw [dif_pos hi]
        by_cases ho : flt.octaveOfSigma (ikeys.get ⟨st.i, hi⟩).sigma =
            flt.o_min + s
        · rw [if_pos ho]
          exact ih _
            (hbody ikeys s _ st (Nat.lt_of_le_of_lt (Nat.zero_le _) hi) h)
        · rwa [if_neg ho]
      · rwa [dif_neg hi]
  have hauto : ∀ keys s st, P st → P (autoLoop flt nout s keys st) := by
    intro keys s st h
    unfold autoLoop
    refine foldl_inv P
      (fun st k => processAngles nout keys.length s flt k (flt.orientAt s k) st)
      keys st (fun st' k hk hst' => ?_) h
    exact hangles keys.length s k _ st'
      (List.length_pos.mpr (List.ne_nil_of_mem hk)) hst'
  unfold mexRun
  refine foldl_inv P (fun st s => octaveStep flt nout force ikeysOpt s st) _
    initState (fun st s _ h => ?_) hinit
  cases ikeysOpt with
  | none => exact hSetI _ _ (hauto _ s _ (hSetI _ _ (hDet st h)))
  | some ikeys => exact hsup ikeys s _ st h

/-- C10: with a supplied frame list of zero tuples, supplied mode is selected
(`nikeys = 0 ≥ 0`), the automatic detector is never invoked, no keypoint is
processed, and the run ends with zero geometry records and zero descriptor
records. -/
theorem C10_empty_supplied (flt : Filt) (nout : Nat) (force : Bool) :
    (mexRun flt nout force (some [])).frames = [] ∧
      (mexRun flt nout force (some [])).descr = [] ∧
      (mexRun flt nout force (some [])).nframes = 0 ∧
      (mexRun flt nout force (some [])).detectCalls = 0 := by
  have h : mexRun flt nout force (some []) = initState := by
    unfold mexRun
    refine foldl_inv (fun st => st = initState)
      (fun st s => octaveStep flt nout force (some []) s st) _ initState
      (fun st s _ hst => ?_) rfl
    subst hst
    rfl
  rw [h]
  exact ⟨rfl, rfl, rfl, rfl⟩

/-- C6: throughout every run, the record count never exceeds the allocated
capacity and the capacity never shrinks: the ghost monitor `capOk`, which
conjoins `nframes + 1 ≤ reserved'` and `reserved ≤ reserved'` at every single
append (the only operations that change `nframes` or `reserved`), ends every
run `true`, and the final record count is within the final capacity. -/
theorem C6_accumulator_capacity (flt : Filt) (nout : Nat) (force : Bool)
    (ikeysOpt : Option (List Frame)) :
    (mexRun flt nout force ikeysOpt).capOk = true ∧
      (mexRun flt nout force ikeysOpt).nframes ≤
        (mexRun flt nout force ikeysOpt).reserved := by
  refine mexRun_inv flt nout force ikeysOpt
    (fun st => st.capOk = true ∧ st.nframes ≤ st.reserved)
    (fun st i' h => h) (fun st s h => h) (fun st h => h)
    (fun nkeys s k angle st hk h => ?_) ⟨rfl, Nat.le_refl 0⟩
  obtain ⟨hok, hle⟩ := h
  have h1 : st.nframes + 1 ≤
      (if st.reserved < st.nframes + 1 then st.reserved + 2 * nkeys
        else st.reserved) := by
    by_cases hg : st.reserved < st.nframes + 1
    · rw [if_pos hg]; omega
    · rw [if_neg hg]; omega
  have h2 : st.reserved ≤
      (if st.reserved < st.nframes + 1 then st.reserved + 2 * nkeys
        else st.reserved) := by
    by_cases hg : st.reserved < st.nframes + 1
    · rw [if_pos hg]; omega
    · rw [if_neg hg]
  constructor
  · show (appendRecord nout nkeys s flt k angle st).capOk = true
    unfold appendRecord
    simp only [hok, Bool.true_and, Bool.and_eq_true, decide_eq_true_eq]
    exact ⟨h1, h2⟩
  · show (appendRecord nout nkeys s flt k angle st).nframes ≤
      (appendRecord nout nkeys s flt k angle st).reserved
    unfold appendRecord
    exact h1

/-- C7: with descriptors requested (`nout = 2`), the geometry and descriptor
outputs are two sequences of exactly `nframes` records each, and the record
at each index of both sequences comes from the same oriented keypoint
instance: both are the images, under the per-instance record maps, of the one
ghost stream of appended instances. -/
theorem C7_record_alignment (flt : Filt) (force : Bool)
    (ikeysOpt : Option (List Frame)) :
    (mexRun flt 2 force ikeysOpt).frames.length =
        (mexRun flt 2 force ikeysOpt).nframes ∧
      (mexRun flt 2 force ikeysOpt).descr.length =
        (mexRun flt 2 force ikeysOpt).nframes ∧
      (mexRun flt 2 force ikeysOpt).frames =
        (mexRun flt 2 force ikeysOpt).insts.map geomOfInst ∧
      (mexRun flt 2 force ikeysOpt).descr =
        (mexRun flt 2 force ikeysOpt).insts.map (descOfInst flt) := by
  have h := mexRun_inv flt 2 force ikeysOpt
    (fun st => st.frames = st.insts.map geomOfInst ∧
      st.descr = st.insts.map (descOfInst flt) ∧
      st.nframes = st.insts.length)
    (fun st i' h => h) (fun st s h => h) (fun st h => h)
    (fun nkeys s k angle st hk h => by
      obtain ⟨hf, hd, hn⟩ := h
      refine ⟨?_, ?_, ?_⟩
      · show st.frames ++ [geomRecord k angle] =
          (st.insts ++ [(s, k, angle)]).map geomOfInst
        rw [List.map_append, hf]
        rfl
      · show (if 2 > 1 then
            st.descr ++
              [descRecord (transpose_descriptor (flt.descrAt s k angle))]
          else st.descr) =
          (st.insts ++ [(s, k, angle)]).map (descOfInst flt)
        rw [if_pos (by omega), List.map_append, hd]
        rfl
      · show st.nframes + 1 = (st.insts ++ [(s, k, angle)]).length
        rw [List.length_append, hn]
        rfl)
    ⟨rfl, rfl, rfl⟩
  obtain ⟨hf, hd, hn⟩ := h
  exact ⟨by rw [hf, List.length_map, hn], by rw [hd, List.length_map, hn],
    hf, hd⟩

/-- Agreement of two run states on everything except the descriptor buffer:
the cursor, counts, capacity, geometry records and all ghost fields. -/
def GeomAgree (s1 s2 : RunState) : Prop :=
  s1.i = s2.i ∧ s1.nframes = s2.nframes ∧ s1.reserved = s2.reserved ∧
    s1.frames = s2.frames ∧ s1.detectCalls = s2.detectCalls ∧
    s1.processed = s2.processed ∧ s1.insts = s2.insts ∧ s1.capOk = s2.capOk

/-- One append with descriptors off and one with descriptors on keep the
states in agreement: the descriptor computation feeds nothing else. -/
theorem appendRecord_geomAgree (nkeys s : Nat) (flt : Filt) (k : Keypoint)
    (angle : ℚ) (st1 st2 : RunState) (h : GeomAgree st1 st2) :
    GeomAgree (appendRecord 1 nkeys s flt k angle st1)
      (appendRecord 2 nkeys s flt k angle st2) := by
  obtain ⟨h1, h2, h3, h4, h5, h6, h7, h8⟩ := h
  unfold appendRecord GeomAgree
  exact ⟨h1, by rw [h2], by rw [h2, h3], by rw [h4], h5, h6, by rw [h7],
    by rw [h2, h3, h8]⟩

/-- The full runs with one and with two requested outputs stay in agreement
on all non-descriptor state. -/
theorem mexRun_geomAgree (flt : Filt) (force : Bool)
    (ikeysOpt : Option (List Frame)) :
    GeomAgree (mexRun flt 1 force ikeysOpt) (mexRun flt 2 force ikeysOpt) := by
  have hang : ∀ nkeys s k angles st1 st2, GeomAgree st1 st2 →
      GeomAgree (processAngles 1 nkeys s flt k angles st1)
        (processAngles 2 nkeys s flt k angles st2) := by
    intro nkeys s k angles st1 st2 h
    unfold processAngles
    exact foldl_rel GeomAgree _ _ angles st1 st2
      (fun b c a _ hbc => appendRecord_geomAgree nkeys s flt k a b c hbc) h
  have hlog : ∀ s st1 st2, GeomAgree st1 st2 →
      GeomAgree (logProcessed s st1) (logProcessed s st2) := by
    intro s st1 st2 h
    obtain ⟨h1, h2, h3, h4, h5, h6, h7, h8⟩ := h
    refine ⟨h1, h2, h3, h4, h5, ?_, h7, h8⟩
    show st1.processed ++ [(s, st1.i)] = st2.processed ++ [(s, st2.i)]
    rw [h6, h1]
  have hsetI : ∀ i' st1 st2, GeomAgree st1 st2 →
      GeomAgree (setI i' st1) (setI i' st2) := by
    intro i' st1 st2 h
    obtain ⟨h1, h2, h3, h4, h5, h6, h7, h8⟩ := h
    exact ⟨rfl, h2, h3, h4, h5, h6, h7, h8⟩
  have hdet : ∀ st1 st2, GeomAgree st1 st2 →
      GeomAgree (bumpDetect st1) (bumpDetect st2) := by
    intro st1 st2 h
    obtain ⟨h1, h2, h3, h4, h5, h6, h7, h8⟩ := h
    refine ⟨h1, h2, h3, h4, ?_, h6, h7, h8⟩
    show st1.detectCalls + 1 = st2.detectCalls + 1
    rw [h5]
  have hbody : ∀ ikeys s tup st1 st2, GeomAgree st1 st2 →
      GeomAgree (suppliedBody flt 1 force ikeys s tup st1)
        (suppliedBody flt 2 force ikeys s tup st2) := by
    intro ikeys s tup st1 st2 h
    unfold suppliedBody bumpI
    have h' := hang ikeys.length s (suppliedKey flt tup)
      (suppliedAngles flt force s tup) _ _ (hlog s _ _ h)
    obtain ⟨h1, h2, h3, h4, h5, h6, h7, h8⟩ := h'
    refine ⟨?_, h2, h3, h4, h5, h6, h7, h8⟩
    show (processAngles 1 ikeys.length s flt (suppliedKey flt tup)
        (suppliedAngles flt force s tup) (logProcessed s st1)).i + 1 =
      (processAngles 2 ikeys.length s flt (suppliedKey flt tup)
        (suppliedAngles flt force s tup) (logProcessed s st2)).i + 1
    rw [h1]
  have hsup : ∀ ikeys s fuel st1 st2, GeomAgree st1 st2 →
      GeomAgree (suppliedLoop flt 1 force ikeys s fuel st1)
        (suppliedLoop flt 2 force ikeys s fuel st2) := by
    intro ikeys s fuel
    induction fuel with
    | zero => exact fun st1 st2 h => h
    | succ fuel ih =>
      intro st1 st2 h
      have hi12 : st1.i = st2.i := h.1
      rw [suppliedLoop, suppliedLoop]
      by_cases hi : st1.i < ikeys.length
      · have hi2 : st2.i < ikeys.length := hi12 ▸ hi
        rw [dif_pos hi, dif_pos hi2,
          show (⟨st2.i, hi2⟩ : Fin ikeys.length) = ⟨st1.i, hi⟩ from
            Fin.ext hi12.symm]
        by_cases ho : flt.octaveOfSigma (ikeys.get ⟨st1.i, hi⟩).sigma =
            flt.o_min + s
        · rw [if_pos ho, if_pos ho]
          exact ih _ _ (hbody ikeys s _ st1 st2 h)
        · rw [if_neg ho, if_neg ho]
          exact h
      · have hi2 : ¬st2.i < ikeys.length := hi12 ▸ hi
        rw [dif_neg hi, dif_neg hi2]
        exact h
  have hauto : ∀ keys s st1 st2, GeomAgree st1 st2 →
      GeomAgree (autoLoop flt 1 s keys st1) (autoLoop flt 2 s keys st2) := by
    intro keys s st1 st2 h
    unfold autoLoop
    exact foldl_rel GeomAgree _ _ keys st1 st2
      (fun b c k _ hbc => hang keys.length s k (flt.orientAt s k) b c hbc) h
  unfold mexRun
  refine foldl_rel GeomAgree _ _ (List.range flt.numSteps) initState initState
    (fun st1 st2 s _ h => ?_) ⟨rfl, rfl, rfl, rfl, rfl, rfl, rfl, rfl⟩
  cases ikeysOpt with
  | none =>
    exact hsetI _ _ _ (hauto _ s _ _ (hsetI _ _ _ (hdet _ _ h)))
  | some ikeys =>
    show GeomAgree (suppliedLoop flt 1 force ikeys s (ikeys.length - st1.i) st1)
      (suppliedLoop flt 2 force ikeys s (ikeys.length - st2.i) st2)
    rw [show ikeys.length - st2.i = ikeys.length - st1.i by rw [h.1]]
    exact hsup ikeys s _ st1 st2 h

/-- C9: the geometry output does not depend on whether descriptors were
requested — for every filter behavior, configuration and supplied frame
list, the run with one requested output and the run with two produce the
same record count and the same geometry-record sequence, and the one-output
run writes no descriptor records at all. -/
theorem C9_geometry_noninterference (flt : Filt) (force : Bool)
    (ikeysOpt : Option (List Frame)) :
    (mexRun flt 1 force ikeysOpt).frames =
        (mexRun flt 2 force ikeysOpt).frames ∧
      (mexRun flt 1 force ikeysOpt).nframes =
        (mexRun flt 2 force ikeysOpt).nframes ∧
      (mexRun flt 1 force ikeysOpt).descr = [] := by
  have h := mexRun_geomAgree flt force ikeysOpt
  refine ⟨h.2.2.2.1, h.2.1, ?_⟩
  refine mexRun_inv flt 1 force ikeysOpt (fun st => st.descr = [])
    (fun st i' h => h) (fun st s h => h) (fun st h => h)
    (fun nkeys s k angle st hk h => ?_) rfl
  show (if 1 > 1 then
      st.descr ++ [descRecord (transpose_descriptor (flt.descrAt s k angle))]
    else st.descr) = []
  rw [if_neg (by omega)]
  exact h

/-! ## Supplied-mode cursor stepping lemmas (for C2) -/

/-- The supplied-mode loop does nothing once the cursor has reached the end
of the tuple list, whatever the remaining fuel. -/
theorem suppliedLoop_stop (flt : Filt) (nout : Nat) (force : Bool)
    (ikeys : List Frame) (s fuel : Nat) (st : RunState)
    (hi : ikeys.length ≤ st.i) :
    suppliedLoop flt nout force ikeys s fuel st = st := by
  cases fuel with
  | zero => rfl
  | succ fuel => rw [suppliedLoop, dif_neg (not_lt.mpr hi)]

/-- Lines 305-307: at a tuple whose reconstructed octave differs from the
current octave index of the filter, the loop stops without advancing the cursor
past that tuple. -/
theorem suppliedLoop_break (flt : Filt) (nout : Nat) (force : Bool)
    (ikeys : List Frame) (s fuel : Nat) (st : RunState) (f : Frame)
    (hf : ikeys[st.i]? = some f)
    (ho : ¬flt.octaveOfSigma f.sigma = flt.o_min + (s:ℤ)) :
    suppliedLoop flt nout force ikeys s (fuel + 1) st = st := by
  obtain ⟨hi, hval⟩ := List.getElem?_eq_some_iff.mp hf
  rw [suppliedLoop, dif_pos hi, List.get_eq_getElem, hval, if_neg ho]

/-- At a tuple whose reconstructed octave matches the current octave of the filter
index, the loop consumes the tuple and continues. -/
theorem suppliedLoop_step (flt : Filt) (nout : Nat) (force : Bool)
    (ikeys : List Frame) (s fuel : Nat) (st : RunState) (f : Frame)
    (hf : ikeys[st.i]? = some f)
    (ho : flt.octaveOfSigma f.sigma = flt.o_min + (s:ℤ)) :
    suppliedLoop flt nout force ikeys s (fuel + 1) st =
      suppliedLoop flt nout force ikeys s fuel
        (suppliedBody flt nout force ikeys s f st) := by
  obtain ⟨hi, hval⟩ := List.getElem?_eq_some_iff.mp hf
  rw [suppliedLoop, dif_pos hi, List.get_eq_getElem, hval, if_pos ho]

/-- C2: in supplied mode the cursor into the sigma-sorted list persists
across octaves.  For any three supplied tuples whose scales fall in octaves
`[0, 0, 1]` (with the filter starting at octave 0 and processing at least two
octaves), the run consumes tuples 0 and 1 during the octave-0 pass and tuple
2 during the octave-1 pass — each tuple exactly once, none skipped — and the
cursor ends at 3. -/
theorem C2_supplied_cursor_octaves (flt : Filt) (nout : Nat) (force : Bool)
    (f0 f1 f2 : Frame) (hmin : flt.o_min = 0) (hsteps : 2 ≤ flt.numSteps)
    (h0 : flt.octaveOfSigma f0.sigma = 0)
    (h1 : flt.octaveOfSigma f1.sigma = 0)
    (h2 : flt.octaveOfSigma f2.sigma = 1) :
    (mexRun flt nout force (some [f0, f1, f2])).processed =
        [(0, 0), (0, 1), (1, 2)] ∧
      (mexRun flt nout force (some [f0, f1, f2])).i = 3 := by
  obtain ⟨m, hm⟩ := Nat.exists_eq_add_of_le hsteps
  -- octave-0 pass: consume tuples 0 and 1, stop at tuple 2
  have ho00 : flt.octaveOfSigma f0.sigma = flt.o_min + ((0:Nat):ℤ) := by
    rw [h0, hmin]; simp
  have ho10 : flt.octaveOfSigma f1.sigma = flt.o_min + ((0:Nat):ℤ) := by
    rw [h1, hmin]; simp
  have ho20 : ¬flt.octaveOfSigma f2.sigma = flt.o_min + ((0:Nat):ℤ) := by
    rw [h2, hmin]; simp
  have ho21 : flt.octaveOfSigma f2.sigma = flt.o_min + ((1:Nat):ℤ) := by
    rw [h2, hmin]; simp
  have hA1i : (suppliedBody flt nout force [f0, f1, f2] 0 f0 initState).i = 1 := by
    rw [suppliedBody_i]
    rfl
  have hA1p : (suppliedBody flt nout force [f0, f1, f2] 0 f0 initState).processed =
      [(0, 0)] := by
    rw [suppliedBody_processed]
    rfl
  have hf1 : [f0, f1, f2][(suppliedBody flt nout force [f0, f1, f2] 0 f0
      initState).i]? = some f1 := by
    rw [hA1i]
    rfl
  have hA2i : (suppliedBody flt nout force [f0, f1, f2] 0 f1
      (suppliedBody flt nout force [f0, f1, f2] 0 f0 initState)).i = 2 := by
    rw [suppliedBody_i, hA1i]
  have hA2p : (suppliedBody flt nout force [f0, f1, f2] 0 f1
      (suppliedBody flt nout force [f0, f1, f2] 0 f0 initState)).processed =
      [(0, 0), (0, 1)] := by
    rw [suppliedBody_processed, hA1p, hA1i]
    rfl
  have hf2 : [f0, f1, f2][(suppliedBody flt nout force [f0, f1, f2] 0 f1
      (suppliedBody flt nout force [f0, f1, f2] 0 f0 initState)).i]? =
      some f2 := by
    rw [hA2i]
    rfl
  have pass0 : octaveStep flt nout force (some [f0, f1, f2]) 0 initState =
      suppliedBody flt nout force [f0, f1, f2] 0 f1
        (suppliedBody flt nout force [f0, f1, f2] 0 f0 initState) := by
    have e0 : octaveStep flt nout force (some [f0, f1, f2]) 0 initState =
        suppliedLoop flt nout force [f0, f1, f2] 0 3 initState := rfl
    rw [e0,
      suppliedLoop_step flt nout force [f0, f1, f2] 0 2 initState f0 rfl ho00,
      suppliedLoop_step flt nout force [f0, f1, f2] 0 1 _ f1 hf1 ho10,
      suppliedLoop_break flt nout force [f0, f1, f2] 0 0 _ f2 hf2 ho20]
  -- octave-1 pass: consume tuple 2
  have hA3i : (suppliedBody flt nout force [f0, f1, f2] 1 f2
      (suppliedBody flt nout force [f0, f1, f2] 0 f1
        (suppliedBody flt nout force [f0, f1, f2] 0 f0 initState))).i = 3 := by
    rw [suppliedBody_i, hA2i]
  have hA3p : (suppliedBody flt nout force [f0, f1, f2] 1 f2
      (suppliedBody flt nout force [f0, f1, f2] 0 f1
        (suppliedBody flt nout force [f0, f1, f2] 0 f0 initState))).processed =
      [(0, 0), (0, 1), (1, 2)] := by
    rw [suppliedBody_processed, hA2p, hA2i]
    rfl
  have pass1 : octaveStep flt nout force (some [f0, f1, f2]) 1
      (suppliedBody flt nout force [f0, f1, f2] 0 f1
        (suppliedBody flt nout force [f0, f1, f2] 0 f0 initState)) =
      suppliedBody flt nout force [f0, f1, f2] 1 f2
        (suppliedBody flt nout force [f0, f1, f2] 0 f1
          (suppliedBody flt nout force [f0, f1, f2] 0 f0 initState)) := by
    have e4 : octaveStep flt nout force (some [f0, f1, f2]) 1
        (suppliedBody flt nout force [f0, f1, f2] 0 f1
          (suppliedBody flt nout force [f0, f1, f2] 0 f0 initState)) =
        suppliedLoop flt nout force [f0, f1, f2] 1
          ([f0, f1, f2].length -
            (suppliedBody flt nout force [f0, f1, f2] 0 f1
              (suppliedBody flt nout force [f0, f1, f2] 0 f0 initState)).i)
          (suppliedBody flt nout force [f0, f1, f2] 0 f1
            (suppliedBody flt nout force [f0, f1, f2] 0 f0 initState)) := rfl
    rw [e4, hA2i, show ([f0, f1, f2] : List Frame).length - 2 = 0 + 1 from rfl,
      suppliedLoop_step flt nout force [f0, f1, f2] 1 0 _ f2 hf2 ho21]
    rfl
  -- the remaining passes consume nothing
  have hrun : mexRun flt nout force (some [f0, f1, f2]) =
      suppliedBody flt nout force [f0, f1, f2] 1 f2
        (suppliedBody flt nout force [f0, f1, f2] 0 f1
          (suppliedBody flt nout force [f0, f1, f2] 0 f0 initState)) := by
    unfold mexRun
    rw [hm, List.range_add, List.foldl_append,
      show List.range 2 = [0, 1] from rfl]
    simp only [List.foldl_cons, List.foldl_nil]
    rw [pass0, pass1]
    refine foldl_inv (fun st => st = suppliedBody flt nout force [f0, f1, f2] 1
        f2 (suppliedBody flt nout force [f0, f1, f2] 0 f1
          (suppliedBody flt nout force [f0, f1, f2] 0 f0 initState)))
      _ _ _ (fun st s _ hst => ?_) rfl
    subst hst
    have e5 : octaveStep flt nout force (some [f0, f1, f2]) s
        (suppliedBody flt nout force [f0, f1, f2] 1 f2
          (suppliedBody flt nout force [f0, f1, f2] 0 f1
            (suppliedBody flt nout force [f0, f1, f2] 0 f0 initState))) =
        suppliedLoop flt nout force [f0, f1, f2] s
          ([f0, f1, f2].length -
            (suppliedBody flt nout force [f0, f1, f2] 1 f2
              (suppliedBody flt nout force [f0, f1, f2] 0 f1
                (suppliedBody flt nout force [f0, f1, f2] 0 f0 initState))).i)
          (suppliedBody flt nout force [f0, f1, f2] 1 f2
            (suppliedBody flt nout force [f0, f1, f2] 0 f1
              (suppliedBody flt nout force [f0, f1, f2] 0 f0 initState))) := rfl
    rw [e5]
    refine suppliedLoop_stop flt nout force [f0, f1, f2] s _ _ ?_
    rw [hA3i]
    exact Nat.le_refl 3
  exact ⟨by rw [hrun]; exact hA3p, by rw [hrun]; exact hA3i⟩

/-- A concrete filter behavior instantiating the supplied-mode cursor
theorem: first octave 0, two octaves processed, scales below 4 assigned to
octave 0 and all others to octave 1. -/
def witFilt : Filt :=
  { o_min := 0, numSteps := 2,
    octaveOfSigma := fun q => if q < 4 then 0 else 1,
    detectAt := fun _ => [], orientAt := fun _ _ => [],
    descrAt := fun _ _ _ => fun _ => 0 }

/-- Witness for `C2_supplied_cursor_octaves` on `witFilt` and the tuple list
with scales `1, 2, 8` (octaves `[0, 0, 1]`). -/
theorem C2_supplied_cursor_octaves_witness :
    witFilt.o_min = 0 ∧ 2 ≤ witFilt.numSteps ∧
      witFilt.octaveOfSigma (Frame.mk 1 1 1 0).sigma = 0 ∧
      witFilt.octaveOfSigma (Frame.mk 2 2 2 0).sigma = 0 ∧
      witFilt.octaveOfSigma (Frame.mk 3 3 8 0).sigma = 1 ∧
      ((mexRun witFilt 1 false
            (some [Frame.mk 1 1 1 0, Frame.mk 2 2 2 0,
              Frame.mk 3 3 8 0])).processed =
          [(0, 0), (0, 1), (1, 2)] ∧
        (mexRun witFilt 1 false
            (some [Frame.mk 1 1 1 0, Frame.mk 2 2 2 0,
              Frame.mk 3 3 8 0])).i = 3) :=
  ⟨rfl, by norm_num [witFilt], by norm_num [witFilt], by norm_num [witFilt],
    by norm_num [witFilt],
    C2_supplied_cursor_octaves witFilt 1 false _ _ _ rfl
      (by norm_num [witFilt]) (by norm_num [witFilt]) (by norm_num [witFilt])
      (by norm_num [witFilt])⟩
